import Mathlib

/-!
Verification model of the nostr-buzz/zap ingestion, deduplication and
pagination core.  The definitions below are a shallow embedding of
`src/CacheManager.js` (BaseCache, ZapEventCache, ReferenceCache,
LoadStateCache) and of the `ZapSubscriptionManager` pagination coordinator
(`src/ui/StatsUI.js` bundle).  JavaScript `Map`s are modelled as
insertion-ordered association lists (a JS `Map` iterates keys in insertion
order, and `set` on an existing key updates the value *without* changing
its position); JS numbers holding unix timestamps are modelled as `Int`;
absent values (`undefined` / `null`) are modelled with `Option`.
-/

/-- ReceiptEvent: the fields of a zap receipt event that the core reads
(`id`, `kind`, `pubkey`, `content`, `created_at`).  `tags`, `reference`
and `isRealTimeEvent` are only consumed by the UI collaborators and are
not needed by any modelled operation. -/
structure Event where
  id : String
  kind : Int
  pubkey : String
  content : String
  created_at : Int
  deriving DecidableEq, Repr

/-- First value stored under key `k` (JS `Map.get`, keys are unique in a
real `Map`). -/
def lookupVal {K V : Type} [DecidableEq K] : List (K × V) → K → Option V
  | [], _ => none
  | (k', v) :: t, k => if k' = k then some v else lookupVal t k

/-- JS `Map.set`: update in place if the key exists (keeping its position
in iteration order), otherwise append at the end. -/
def assocSet {K V : Type} [DecidableEq K] : List (K × V) → K → V → List (K × V)
  | [], k, v => [(k, v)]
  | (k', v') :: t, k, v => if k' = k then (k, v) :: t else (k', v') :: assocSet t k v

/-- JS `Map.delete`: remove the entry with the given key (a no-op when the
key is absent). -/
def assocDelete {K V : Type} [DecidableEq K] : List (K × V) → K → List (K × V)
  | [], _ => []
  | (k', v') :: t, k => if k' = k then t else (k', v') :: assocDelete t k

/-- BaseCache (`CacheManager.js` lines 3–35): a bounded key/value store.
`cache` models `this.cache` (a JS `Map`), `accessOrder` models
`this.accessOrder` — its `Date.now()` values are written but never read
by the code, so only the (insertion-ordered) key list is kept. -/
structure BaseCache (K V : Type) where
  cache : List (K × V)
  accessOrder : List K
  maxSize : Nat
  deriving Repr

/-- A fresh cache; the JS constructor defaults `maxSize` to 1000. -/
def BaseCache.empty (K V : Type) (maxSize : Nat) : BaseCache K V :=
  { cache := [], accessOrder := [], maxSize := maxSize }

def BaseCache.hasKey {K V : Type} [DecidableEq K] (c : BaseCache K V) (k : K) : Bool :=
  (lookupVal c.cache k).isSome

/-- `BaseCache.set` (lines 10–21): when at capacity and the key is new,
evict the first key of `accessOrder` (insertion order) from both maps;
then write the value and move the key to the end of `accessOrder`
(`accessOrder.delete(key)` followed by `accessOrder.set(key, Date.now())`). -/
def BaseCache.set {K V : Type} [DecidableEq K] (c : BaseCache K V) (k : K) (v : V) :
    BaseCache K V :=
  let c1 :=
    if c.maxSize ≤ c.cache.length ∧ c.hasKey k = false then
      match c.accessOrder.head? with
      | some oldestKey =>
          { c with cache := assocDelete c.cache oldestKey,
                   accessOrder := c.accessOrder.filter (fun x => x ≠ oldestKey) }
      | none => c
    else c
  { c1 with cache := assocSet c1.cache k v,
            accessOrder := c1.accessOrder.filter (fun x => x ≠ k) ++ [k] }

/-- `BaseCache.get` (lines 23–30): return the stored value, and refresh the
key's `accessOrder` timestamp.  The JS `accessOrder.set(key, Date.now())`
does not move an existing key (a `Map` keeps the original insertion
position), and appends the key only if it was absent. -/
def BaseCache.get {K V : Type} [DecidableEq K] (c : BaseCache K V) (k : K) :
    Option V × BaseCache K V :=
  match lookupVal c.cache k with
  | none => (none, c)
  | some v =>
      (some v,
        { c with accessOrder :=
            if k ∈ c.accessOrder then c.accessOrder else c.accessOrder ++ [k] })

/-- `has(key)` (line 32): reads `this.cache` only. -/
def BaseCache.has {K V : Type} [DecidableEq K] (c : BaseCache K V) (k : K) : Bool :=
  c.hasKey k

/-- `delete(key)` (line 33): removes from `this.cache` only —
`accessOrder` is left untouched. -/
def BaseCache.del {K V : Type} [DecidableEq K] (c : BaseCache K V) (k : K) :
    BaseCache K V :=
  { c with cache := assocDelete c.cache k }

/-- `clear()` (line 34): clears `this.cache` only — `accessOrder` is left
untouched. -/
def BaseCache.clearAllEntries {K V : Type} (c : BaseCache K V) : BaseCache K V :=
  { c with cache := [] }

/-- One operation of the BaseCache public interface. -/
inductive CacheOp (K V : Type) where
  | set (k : K) (v : V)
  | get (k : K)
  | has (k : K)
  | del (k : K)
  | clear
  deriving Repr

def BaseCache.applyOp {K V : Type} [DecidableEq K] (c : BaseCache K V) :
    CacheOp K V → BaseCache K V
  | .set k v => c.set k v
  | .get k => (c.get k).2
  | .has _ => c
  | .del k => c.del k
  | .clear => c.clearAllEntries

def BaseCache.runOps {K V : Type} [DecidableEq K] (c : BaseCache K V)
    (ops : List (CacheOp K V)) : BaseCache K V :=
  ops.foldl BaseCache.applyOp c

/-- The C2 scenario: capacity 2, `set(a,1)`, `set(b,2)`, `get(a)`, `set(c,3)`. -/
def c2Final : BaseCache String Nat :=
  ((((BaseCache.empty String Nat 2).set "a" 1).set "b" 2).get "a").2.set "c" 3

/-- C2: the spec scenario expects `get(a)` to count as a recency touch so
that `b` is evicted and `a`, `c` remain.  Evaluating the code on that very
sequence shows the opposite: `a` is evicted while `b` and `c` remain,
because `get` only rewrites the stored `Date.now()` timestamp
(`accessOrder.set` on an existing key does not move it in a JS `Map`'s
iteration order) and eviction takes the first key in iteration order. -/
theorem C2_lru_scenario_eval :
    c2Final.has "a" = false ∧ c2Final.has "b" = true ∧ c2Final.has "c" = true := by
  refine ⟨?_, ?_, ?_⟩ <;> rfl

/-- The C6 counterexample run: capacity 2 with a `delete` in the sequence. -/
def c6Final : BaseCache String Nat :=
  (BaseCache.empty String Nat 2).runOps
    [.set "a" 1, .set "b" 2, .del "a", .set "c" 3, .set "d" 4]

/-- C6 (counterexample): the claim says the number of stored keys never
exceeds the configured capacity after any sequence of `set`, `get`, `has`,
`delete`, `clear`.  Concretely, with capacity 2 the sequence
`set(a) set(b) delete(a) set(c) set(d)` leaves 3 stored keys: `delete`
does not remove `a` from `accessOrder`, so the eviction triggered by
`set(d)` removes the already-deleted key `a` from the ledger and deletes
nothing from the cache. -/
theorem C6_counterexample : c6Final.maxSize < c6Final.cache.length := by
  show 2 < 3
  omega

/-! ### Supporting lemmas about the association-list model of JS `Map` -/

theorem lookupVal_isSome_iff {K V : Type} [DecidableEq K] (l : List (K × V)) (k : K) :
    (lookupVal l k).isSome = true ↔ k ∈ l.map Prod.fst := by
  induction l with
  | nil => simp [lookupVal]
  | cons p t ih =>
      obtain ⟨k', v⟩ := p
      by_cases h : k' = k
      · subst h; simp [lookupVal]
      · rw [show lookupVal ((k', v) :: t) k = lookupVal t k from by simp [lookupVal, h]]
        simp only [List.map_cons, List.mem_cons, ih]
        constructor
        · exact Or.inr
        · rintro (rfl | hm)
          · exact absurd rfl h
          · exact hm

theorem lookupVal_eq_none_iff {K V : Type} [DecidableEq K] (l : List (K × V)) (k : K) :
    lookupVal l k = none ↔ k ∉ l.map Prod.fst := by
  rw [← lookupVal_isSome_iff l k]
  cases lookupVal l k <;> simp

theorem assocSet_sublist_keys {K V : Type} [DecidableEq K] (l : List (K × V)) (k : K) (v : V) :
    ∀ k', k' ∈ (assocSet l k v).map Prod.fst ↔ k' ∈ l.map Prod.fst ∨ k' = k := by
  intro k'
  induction l with
  | nil => simp [assocSet]
  | cons p t ih =>
      obtain ⟨k₀, v₀⟩ := p
      by_cases h : k₀ = k
      · subst h; simp [assocSet]; tauto
      · simp [assocSet, h, ih]; tauto

theorem assocSet_nodup_keys {K V : Type} [DecidableEq K] (l : List (K × V)) (k : K) (v : V)
    (h : (l.map Prod.fst).Nodup) : ((assocSet l k v).map Prod.fst).Nodup := by
  induction l with
  | nil => simp [assocSet]
  | cons p t ih =>
      obtain ⟨k₀, v₀⟩ := p
      simp only [List.map_cons, List.nodup_cons] at h
      by_cases hk : k₀ = k
      · subst hk
        simpa [assocSet] using h
      · simp only [assocSet, hk, if_false, List.map_cons, List.nodup_cons]
        refine ⟨?_, ih h.2⟩
        rw [assocSet_sublist_keys]
        rintro (hmem | rfl)
        · exact h.1 hmem
        · exact hk rfl

theorem assocSet_length_of_mem {K V : Type} [DecidableEq K] (l : List (K × V)) (k : K) (v : V)
    (h : k ∈ l.map Prod.fst) : (assocSet l k v).length = l.length := by
  induction l with
  | nil => simp at h
  | cons p t ih =>
      obtain ⟨k₀, v₀⟩ := p
      by_cases hk : k₀ = k
      · simp [assocSet, hk]
      · simp only [List.map_cons, List.mem_cons] at h
        rcases h with h | h
        · exact absurd h.symm hk
        · simp [assocSet, hk, ih h]

theorem assocSet_length_of_not_mem {K V : Type} [DecidableEq K] (l : List (K × V)) (k : K) (v : V)
    (h : k ∉ l.map Prod.fst) : (assocSet l k v).length = l.length + 1 := by
  induction l with
  | nil => simp [assocSet]
  | cons p t ih =>
      obtain ⟨k₀, v₀⟩ := p
      simp only [List.map_cons, List.mem_cons, not_or] at h
      have hk : ¬ k₀ = k := fun hc => h.1 hc.symm
      simp [assocSet, hk, ih h.2]

theorem assocDelete_sublist {K V : Type} [DecidableEq K] (l : List (K × V)) (k : K) :
    (assocDelete l k).Sublist l := by
  induction l with
  | nil => simp [assocDelete]
  | cons p t ih =>
      obtain ⟨k₀, v₀⟩ := p
      by_cases hk : k₀ = k
      · simp only [assocDelete, if_pos hk]
        exact List.sublist_cons_self _ _
      · simp only [assocDelete, if_neg hk]
        exact List.Sublist.cons₂ _ ih

theorem assocDelete_length_of_mem {K V : Type} [DecidableEq K] (l : List (K × V)) (k : K)
    (h : k ∈ l.map Prod.fst) : (assocDelete l k).length + 1 = l.length := by
  induction l with
  | nil => simp at h
  | cons p t ih =>
      obtain ⟨k₀, v₀⟩ := p
      by_cases hk : k₀ = k
      · simp [assocDelete, hk]
      · simp only [List.map_cons, List.mem_cons] at h
        rcases h with h | h
        · exact absurd h.symm hk
        · simp [assocDelete, hk, ih h]

theorem assocDelete_mem_keys_of_nodup {K V : Type} [DecidableEq K] (l : List (K × V)) (k : K)
    (hnd : (l.map Prod.fst).Nodup) :
    ∀ k', k' ∈ (assocDelete l k).map Prod.fst ↔ k' ∈ l.map Prod.fst ∧ k' ≠ k := by
  intro k'
  induction l with
  | nil => simp [assocDelete]
  | cons p t ih =>
      obtain ⟨k₀, v₀⟩ := p
      simp only [List.map_cons, List.nodup_cons] at hnd
      by_cases hk : k₀ = k
      · subst hk
        have hnotin : k₀ ∉ t.map Prod.fst := hnd.1
        simp only [assocDelete, if_pos rfl, List.map_cons, List.mem_cons]
        constructor
        · intro hmem
          exact ⟨Or.inr hmem, fun hc => hnotin (hc ▸ hmem)⟩
        · rintro ⟨rfl | h, hne⟩
          · exact absurd rfl hne
          · exact h
      · simp only [assocDelete, if_neg hk, List.map_cons, List.mem_cons, ih hnd.2]
        constructor
        · rintro (rfl | ⟨h1, h2⟩)
          · exact ⟨Or.inl rfl, fun hc => hk hc⟩
          · exact ⟨Or.inr h1, h2⟩
        · rintro ⟨rfl | h, hne⟩
          · exact Or.inl rfl
          · exact Or.inr ⟨h, hne⟩

/-! ### Well-formedness of a `BaseCache` reachable through `set`/`get`/`has` -/

/-- Invariant connecting `cache` and `accessOrder`: keys are unique, the two
ledgers hold the same key set, and the size bound holds. -/
def BaseCache.WF {K V : Type} [DecidableEq K] (c : BaseCache K V) : Prop :=
  (c.cache.map Prod.fst).Nodup ∧ c.accessOrder.Nodup ∧
    (∀ k, k ∈ c.cache.map Prod.fst ↔ k ∈ c.accessOrder) ∧
    c.cache.length ≤ c.maxSize ∧ 1 ≤ c.maxSize

/-- Second stage of `set` (the unconditional write): preserves well-formedness
provided the size bound has room for the key. -/
theorem BaseCache.WF_write {K V : Type} [DecidableEq K] (c1 : BaseCache K V) (k : K) (v : V)
    (hnd : (c1.cache.map Prod.fst).Nodup) (hord : c1.accessOrder.Nodup)
    (hiff : ∀ k', k' ∈ c1.cache.map Prod.fst ↔ k' ∈ c1.accessOrder)
    (hmax : 1 ≤ c1.maxSize)
    (hlen1 : k ∈ c1.cache.map Prod.fst → c1.cache.length ≤ c1.maxSize)
    (hlen2 : k ∉ c1.cache.map Prod.fst → c1.cache.length + 1 ≤ c1.maxSize) :
    BaseCache.WF { c1 with cache := assocSet c1.cache k v,
                           accessOrder := c1.accessOrder.filter (fun x => x ≠ k) ++ [k] } := by
  refine ⟨assocSet_nodup_keys _ _ _ hnd, ?_, ?_, ?_, hmax⟩
  · refine List.Nodup.append (hord.filter _) (List.nodup_singleton k) ?_
    intro a ha hb
    simp only [List.mem_singleton] at hb
    subst hb
    simp at ha
  · intro k'
    rw [assocSet_sublist_keys]
    by_cases hk : k' = k
    · subst hk; simp
    · simp [hk, List.mem_filter, hiff k']
  · by_cases hk : k ∈ c1.cache.map Prod.fst
    · simpa [assocSet_length_of_mem _ _ _ hk] using hlen1 hk
    · simpa [assocSet_length_of_not_mem _ _ _ hk] using hlen2 hk

theorem BaseCache.set_WF {K V : Type} [DecidableEq K] (c : BaseCache K V) (k : K) (v : V)
    (h : c.WF) : (c.set k v).WF := by
  obtain ⟨hnd, hord, hiff, hlen, hmax⟩ := h
  unfold BaseCache.set
  by_cases hcond : c.maxSize ≤ c.cache.length ∧ c.hasKey k = false
  · -- eviction fires: the head of accessOrder exists and is a stored key
    have hkeys : k ∉ c.cache.map Prod.fst := by
      rw [← lookupVal_isSome_iff]
      unfold BaseCache.hasKey at hcond
      simp [hcond.2]
    have hlen1 : 1 ≤ c.cache.length := le_trans hmax hcond.1
    have hordne : c.accessOrder ≠ [] := by
      intro h0
      rcases hc : c.cache with _ | ⟨p, t⟩
      · rw [hc] at hlen1; simp at hlen1
      · have : p.1 ∈ c.cache.map Prod.fst := by rw [hc]; simp
        have := (hiff p.1).1 this
        rw [h0] at this
        simp at this
    obtain ⟨oldest, rest, hacc⟩ : ∃ a t, c.accessOrder = a :: t := by
      rcases ho : c.accessOrder with _ | ⟨a, t⟩
      · exact absurd ho hordne
      · exact ⟨a, t, rfl⟩
    have holdmem : oldest ∈ c.cache.map Prod.fst := by
      rw [hiff, hacc]; exact List.mem_cons_self _ _
    rw [if_pos hcond]
    have hhead : c.accessOrder.head? = some oldest := by rw [hacc]; rfl
    rw [hhead]
    refine BaseCache.WF_write
      ⟨assocDelete c.cache oldest, c.accessOrder.filter (fun x => x ≠ oldest), c.maxSize⟩
      k v ?_ ?_ ?_ hmax ?_ ?_
    · exact List.Nodup.sublist ((assocDelete_sublist c.cache oldest).map Prod.fst) hnd
    · exact hord.filter _
    · intro k'
      simp only [assocDelete_mem_keys_of_nodup c.cache oldest hnd, List.mem_filter,
        hiff k', decide_eq_true_eq]
    · intro hk
      have := (assocDelete_mem_keys_of_nodup c.cache oldest hnd k).1 hk
      exact absurd this.1 hkeys
    · intro _
      have hdel : (assocDelete c.cache oldest).length + 1 = c.cache.length :=
        assocDelete_length_of_mem _ _ holdmem
      calc (assocDelete c.cache oldest).length + 1 = c.cache.length := hdel
        _ ≤ c.maxSize := hlen
  · rw [if_neg hcond]
    refine BaseCache.WF_write c k v hnd hord hiff hmax (fun _ => hlen) ?_
    intro hk
    rcases Nat.lt_or_ge c.cache.length c.maxSize with hlt | hge
    · omega
    · exfalso
      refine hcond ⟨hge, ?_⟩
      unfold BaseCache.hasKey
      rw [show lookupVal c.cache k = none from (lookupVal_eq_none_iff _ _).2 hk]
      rfl

theorem BaseCache.get_WF {K V : Type} [DecidableEq K] (c : BaseCache K V) (k : K)
    (h : c.WF) : ((c.get k).2).WF := by
  unfold BaseCache.get
  rcases hl : lookupVal c.cache k with _ | v
  · exact h
  · have hmem : k ∈ c.cache.map Prod.fst := by
      rw [← lookupVal_isSome_iff, hl]; rfl
    have hordmem : k ∈ c.accessOrder := (h.2.2.1 k).1 hmem
    simp only [if_pos hordmem]
    exact h

/-- Which interface operations the amended C6 bound quantifies over
(`delete`/`clear` are the ones that break the ledger). -/
def CacheOp.benign {K V : Type} : CacheOp K V → Bool
  | .set _ _ => true
  | .get _ => true
  | .has _ => true
  | .del _ => false
  | .clear => false

theorem BaseCache.applyOp_maxSize {K V : Type} [DecidableEq K] (c : BaseCache K V)
    (op : CacheOp K V) : (c.applyOp op).maxSize = c.maxSize := by
  cases op with
  | set k v =>
      show (c.set k v).maxSize = c.maxSize
      unfold BaseCache.set
      dsimp only
      split
      · split <;> rfl
      · rfl
  | get k =>
      show ((c.get k).2).maxSize = c.maxSize
      unfold BaseCache.get
      split <;> rfl
  | has k => rfl
  | del k => rfl
  | clear => rfl

theorem BaseCache.applyOp_WF {K V : Type} [DecidableEq K] (c : BaseCache K V)
    (op : CacheOp K V) (h : c.WF) (hb : op.benign = true) : (c.applyOp op).WF := by
  cases op with
  | set k v => exact c.set_WF k v h
  | get k => exact c.get_WF k h
  | has k => exact h
  | del k => simp [CacheOp.benign] at hb
  | clear => simp [CacheOp.benign] at hb

theorem BaseCache.runOps_WF {K V : Type} [DecidableEq K] :
    ∀ (ops : List (CacheOp K V)) (c : BaseCache K V), c.WF →
      (∀ op ∈ ops, op.benign = true) →
      (c.runOps ops).WF ∧ (c.runOps ops).maxSize = c.maxSize
  | [], _, h, _ => ⟨h, rfl⟩
  | op :: ops, c, h, hb => by
      have h1 : (c.applyOp op).WF := c.applyOp_WF op h (hb op (List.mem_cons_self _ _))
      have h2 := BaseCache.runOps_WF ops (c.applyOp op) h1
        (fun o ho => hb o (List.mem_cons_of_mem _ ho))
      have hstep : c.runOps (op :: ops) = (c.applyOp op).runOps ops := rfl
      rw [hstep]
      exact ⟨h2.1, h2.2.trans (c.applyOp_maxSize op)⟩

theorem BaseCache.empty_WF {K V : Type} [DecidableEq K] (N : Nat) (hN : 1 ≤ N) :
    (BaseCache.empty K V N).WF := by
  refine ⟨?_, ?_, ?_, ?_, hN⟩ <;> simp [BaseCache.empty]

/-- C6 (amended): for a Bounded Cache of capacity `N ≥ 1`, the number of
stored keys never exceeds `N` after any sequence of `set`, `get` and `has`
operations.  (`delete` and `clear` remove entries from `this.cache` without
updating `accessOrder`; once the two are out of sync a later `set` can make
eviction target an already-deleted key and the bound can be exceeded, as
`C6_counterexample` shows.) -/
theorem C6_amended_size_bound {K V : Type} [DecidableEq K] (N : Nat) (hN : 1 ≤ N)
    (ops : List (CacheOp K V)) (hben : ∀ op ∈ ops, op.benign = true) :
    ((BaseCache.empty K V N).runOps ops).cache.length ≤ N := by
  obtain ⟨hwf, hms⟩ :=
    BaseCache.runOps_WF ops (BaseCache.empty K V N) (BaseCache.empty_WF N hN) hben
  have hb := hwf.2.2.2.1
  rw [hms] at hb
  exact hb

/-- Witness: the amended C6 bound applied to a concrete benign run. -/
theorem C6_amended_witness :
    ((BaseCache.empty String Nat 2).runOps
        [.set "a" 1, .get "a", .set "b" 2, .set "c" 3, .has "b"]).cache.length ≤ 2 :=
  C6_amended_size_bound 2 (by omega) _ (by decide)

/-! ### ZapEventCache (`CacheManager.js` lines 75–130) -/

/-- The duplicate test of `ZapEventCache.#isDuplicate` (lines 121–129):
same `id`, or identical `(kind, pubkey, content, created_at)`. -/
def isDuplicate (events : List Event) (e : Event) : Bool :=
  events.any fun x =>
    x.id == e.id ||
      (x.kind == e.kind && x.pubkey == e.pubkey && x.content == e.content &&
        x.created_at == e.created_at)

/-- Stable insertion into a descending-`created_at` list; together with
`sortDesc` this models the stable JS
`events.sort((a, b) => b.created_at - a.created_at)`. -/
def insertDesc (e : Event) : List Event → List Event
  | [] => [e]
  | x :: xs => if e.created_at < x.created_at then x :: insertDesc e xs else e :: x :: xs

/-- Stable sort, descending by `created_at`. -/
def sortDesc : List Event → List Event
  | [] => []
  | x :: xs => insertDesc x (sortDesc xs)

/-- A ZapEventCache is a BaseCache from view ids to event lists
(`class ZapEventCache extends BaseCache`). -/
abbrev ZapEventCache := BaseCache String (List Event)

/-- `getEvents(viewId)` (lines 97–99): `this.get(viewId) || []`. -/
def ZapEventCache.getEvents (c : ZapEventCache) (viewId : String) :
    List Event × ZapEventCache :=
  let g := BaseCache.get c viewId
  (g.1.getD [], g.2)

/-- The value the Event Store currently holds for a view (reading the map
without the `accessOrder` touch; used to state properties). -/
def ZapEventCache.getEventsVal (c : ZapEventCache) (viewId : String) : List Event :=
  (lookupVal c.cache viewId).getD []

/-- `setEvents(viewId, events, maintainOrder)` (lines 101–107). -/
def ZapEventCache.setEvents (c : ZapEventCache) (viewId : String) (events : List Event)
    (maintainOrder : Bool) : ZapEventCache :=
  let p := if maintainOrder then ZapEventCache.getEvents c viewId else ([], c)
  let existingEvents := p.1.filter fun e => !(events.any fun n => n.id == e.id)
  BaseCache.set p.2 viewId (existingEvents ++ events)

/-- `addEvent(viewId, event)` (lines 109–119).  The JS code mutates the
array returned by `getEvents` in place (`events.push`, `events.sort`) —
since that array is the very object stored in the cache, the mutation is
modelled by rewriting the stored value before the `setEvents` call (when
the view has a stored array at all; for an unknown view `getEvents`
returns a fresh `[]` and nothing is stored until `setEvents` runs). -/
def ZapEventCache.addEvent (c : ZapEventCache) (viewId : String) (e : Event) :
    Bool × ZapEventCache :=
  if e.id = "" then (false, c)
  else
    let g := ZapEventCache.getEvents c viewId
    if isDuplicate g.1 e then (false, g.2)
    else
      let sorted := sortDesc (g.1 ++ [e])
      let c2 : ZapEventCache :=
        if (lookupVal g.2.cache viewId).isSome then
          { g.2 with cache := assocSet g.2.cache viewId sorted }
        else g.2
      (true, ZapEventCache.setEvents c2 viewId sorted true)

/-- The per-view value semantics of `addEvent`: reject empty ids and
duplicates, otherwise append and re-sort descending.  `addEvent_projection`
proves this is exactly what `ZapEventCache.addEvent` does to the view's
stored list. -/
def addEventL (events : List Event) (e : Event) : Bool × List Event :=
  if e.id = "" then (false, events)
  else if isDuplicate events e then (false, events)
  else (true, sortDesc (events ++ [e]))

theorem BaseCache.get_fst {K V : Type} [DecidableEq K] (c : BaseCache K V) (k : K) :
    (c.get k).1 = lookupVal c.cache k := by
  unfold BaseCache.get
  split <;> simp_all

theorem BaseCache.get_snd_cache {K V : Type} [DecidableEq K] (c : BaseCache K V) (k : K) :
    ((c.get k).2).cache = c.cache := by
  unfold BaseCache.get
  split <;> rfl

theorem lookupVal_assocSet_self {K V : Type} [DecidableEq K] (l : List (K × V)) (k : K) (v : V) :
    lookupVal (assocSet l k v) k = some v := by
  induction l with
  | nil => simp [assocSet, lookupVal]
  | cons p t ih =>
      obtain ⟨k₀, v₀⟩ := p
      by_cases h : k₀ = k
      · simp [assocSet, h, lookupVal]
      · simp [assocSet, h, lookupVal, ih]

theorem BaseCache.set_lookup_self {K V : Type} [DecidableEq K] (c : BaseCache K V)
    (k : K) (v : V) : lookupVal ((c.set k v).cache) k = some v := by
  unfold BaseCache.set
  dsimp only
  exact lookupVal_assocSet_self _ _ _

/-- Every element of a list has its own id in the list, so the
`existingEvents` filter of `setEvents` keeps nothing when the current
array and the argument coincide. -/
theorem filter_self_ids (l : List Event) :
    (l.filter fun e => !(l.any fun n => n.id == e.id)) = [] := by
  rw [List.filter_eq_nil_iff]
  intro a ha
  have h : (l.any fun n => n.id == a.id) = true := List.any_eq_true.2 ⟨a, ha, by simp⟩
  simp [h]

theorem getEventsVal_setEvents_self (c2 : ZapEventCache) (viewId : String)
    (sorted : List Event)
    (h : lookupVal c2.cache viewId = some sorted ∨ lookupVal c2.cache viewId = none) :
    ZapEventCache.getEventsVal (ZapEventCache.setEvents c2 viewId sorted true) viewId
      = sorted := by
  unfold ZapEventCache.setEvents ZapEventCache.getEvents ZapEventCache.getEventsVal
  dsimp only
  rw [if_pos rfl, BaseCache.get_fst]
  rcases h with h | h
  · rw [h]
    show (lookupVal ((BaseCache.get c2 viewId).2.set viewId
        ((sorted.filter fun e => !(sorted.any fun n => n.id == e.id)) ++ sorted)).cache
        viewId).getD [] = sorted
    rw [BaseCache.set_lookup_self, filter_self_ids]
    rfl
  · rw [h]
    show (lookupVal ((BaseCache.get c2 viewId).2.set viewId
        ((([] : List Event).filter fun e => !(sorted.any fun n => n.id == e.id))
          ++ sorted)).cache viewId).getD [] = sorted
    rw [BaseCache.set_lookup_self]
    rfl

/-- `addEvent` acts on the view's stored list exactly as the per-view
function `addEventL`, and returns the same acceptance flag. -/
theorem addEvent_projection (c : ZapEventCache) (viewId : String) (e : Event) :
    (ZapEventCache.addEvent c viewId e).1
        = (addEventL (ZapEventCache.getEventsVal c viewId) e).1 ∧
      ZapEventCache.getEventsVal (ZapEventCache.addEvent c viewId e).2 viewId
        = (addEventL (ZapEventCache.getEventsVal c viewId) e).2 := by
  have hval : (ZapEventCache.getEvents c viewId).1 = ZapEventCache.getEventsVal c viewId := by
    show (BaseCache.get c viewId).1.getD [] = (lookupVal c.cache viewId).getD []
    rw [BaseCache.get_fst]
  by_cases hid : e.id = ""
  · constructor <;> simp [ZapEventCache.addEvent, addEventL, hid]
  · unfold ZapEventCache.addEvent addEventL
    rw [if_neg hid, if_neg hid]
    dsimp only
    rw [hval]
    by_cases hdup : isDuplicate (ZapEventCache.getEventsVal c viewId) e = true
    · rw [if_pos hdup, if_pos hdup]
      refine ⟨rfl, ?_⟩
      show ZapEventCache.getEventsVal (ZapEventCache.getEvents c viewId).2 viewId
          = ZapEventCache.getEventsVal c viewId
      unfold ZapEventCache.getEvents ZapEventCache.getEventsVal
      dsimp only
      rw [BaseCache.get_snd_cache]
    · rw [if_neg hdup, if_neg hdup]
      refine ⟨rfl, ?_⟩
      dsimp only
      apply getEventsVal_setEvents_self
      rcases hl : lookupVal c.cache viewId with _ | l
      · -- unknown view: no in-place mutation happens
        right
        have hsnd : (ZapEventCache.getEvents c viewId).2.cache = c.cache := by
          unfold ZapEventCache.getEvents
          dsimp only
          rw [BaseCache.get_snd_cache]
        rw [show ((lookupVal (ZapEventCache.getEvents c viewId).2.cache viewId).isSome)
            = false from by rw [hsnd, hl]; rfl]
        simp only [Bool.false_eq_true, if_false]
        rw [hsnd, hl]
      · -- stored array mutated in place to the sorted result
        left
        have hsnd : (ZapEventCache.getEvents c viewId).2.cache = c.cache := by
          unfold ZapEventCache.getEvents
          dsimp only
          rw [BaseCache.get_snd_cache]
        rw [show ((lookupVal (ZapEventCache.getEvents c viewId).2.cache viewId).isSome)
            = true from by rw [hsnd, hl]; rfl]
        simp only [if_true]
        exact lookupVal_assocSet_self _ _ _

theorem ZapEventCache.getEvents_fst (c : ZapEventCache) (viewId : String) :
    (ZapEventCache.getEvents c viewId).1 = ZapEventCache.getEventsVal c viewId := by
  show (BaseCache.get c viewId).1.getD [] = (lookupVal c.cache viewId).getD []
  rw [BaseCache.get_fst]

theorem insertDesc_perm (e : Event) (l : List Event) : (insertDesc e l).Perm (e :: l) := by
  induction l with
  | nil => exact List.Perm.refl _
  | cons x xs ih =>
      by_cases h : e.created_at < x.created_at
      · rw [insertDesc, if_pos h]
        exact (ih.cons x).trans (List.Perm.swap _ _ _)
      · rw [insertDesc, if_neg h]

theorem sortDesc_perm (l : List Event) : (sortDesc l).Perm l := by
  induction l with
  | nil => exact List.Perm.refl _
  | cons x xs ih => exact (insertDesc_perm x (sortDesc xs)).trans (ih.cons x)

/-- The quadruple comparison of the secondary dedup rule. -/
def sameQuad (x e : Event) : Bool :=
  x.kind == e.kind && x.pubkey == e.pubkey && x.content == e.content &&
    x.created_at == e.created_at

theorem isDuplicate_eq_true_iff (l : List Event) (e : Event) :
    isDuplicate l e = true ↔ ∃ x ∈ l, x.id = e.id ∨
      (x.kind = e.kind ∧ x.pubkey = e.pubkey ∧ x.content = e.content ∧
        x.created_at = e.created_at) := by
  unfold isDuplicate
  rw [List.any_eq_true]
  constructor
  · rintro ⟨x, hx, hb⟩
    refine ⟨x, hx, ?_⟩
    simp only [Bool.or_eq_true, Bool.and_eq_true, beq_iff_eq] at hb
    tauto
  · rintro ⟨x, hx, hb⟩
    refine ⟨x, hx, ?_⟩
    simp only [Bool.or_eq_true, Bool.and_eq_true, beq_iff_eq]
    tauto

/-- C4: `addEvent` returns `true` exactly when the event is newly accepted
(`false` exactly when it is a duplicate under either dedup rule); a
rejected event leaves the view's Event Store unchanged; if the store holds
exactly one entry with the event's `id` (resp. one entry with identical
`(kind, pubkey, content, created_at)`), the add is rejected and exactly
one such entry remains; and an accepted event leaves exactly one entry
with its `id`. -/
theorem C4_addEvent_dedup (c : ZapEventCache) (viewId : String) (e : Event)
    (hid : e.id ≠ "") :
    ((ZapEventCache.addEvent c viewId e).1 = true ↔
        isDuplicate (ZapEventCache.getEventsVal c viewId) e = false)
    ∧ ((ZapEventCache.addEvent c viewId e).1 = false →
        ZapEventCache.getEventsVal (ZapEventCache.addEvent c viewId e).2 viewId
          = ZapEventCache.getEventsVal c viewId)
    ∧ ((ZapEventCache.getEventsVal c viewId).countP (fun x => x.id == e.id) = 1 →
        (ZapEventCache.addEvent c viewId e).1 = false ∧
          (ZapEventCache.getEventsVal (ZapEventCache.addEvent c viewId e).2 viewId).countP
              (fun x => x.id == e.id) = 1)
    ∧ ((ZapEventCache.getEventsVal c viewId).countP (fun x => sameQuad x e) = 1 →
        (ZapEventCache.addEvent c viewId e).1 = false ∧
          (ZapEventCache.getEventsVal (ZapEventCache.addEvent c viewId e).2 viewId).countP
              (fun x => sameQuad x e) = 1)
    ∧ ((ZapEventCache.addEvent c viewId e).1 = true →
        (ZapEventCache.getEventsVal (ZapEventCache.addEvent c viewId e).2 viewId).countP
            (fun x => x.id == e.id) = 1) := by
  obtain ⟨hfst, hsnd⟩ := addEvent_projection c viewId e
  rw [hfst, hsnd]
  unfold addEventL
  rw [if_neg hid]
  by_cases hdup : isDuplicate (ZapEventCache.getEventsVal c viewId) e = true
  · rw [if_pos hdup]
    refine ⟨by simp [hdup], fun _ => rfl, fun h => ⟨rfl, h⟩, fun h => ⟨rfl, h⟩, by simp⟩
  · rw [if_neg hdup]
    have hdupf : isDuplicate (ZapEventCache.getEventsVal c viewId) e = false :=
      Bool.not_eq_true _ ▸ (by simpa using hdup)
    have hnone : ∀ x ∈ ZapEventCache.getEventsVal c viewId,
        ¬(x.id = e.id ∨ (x.kind = e.kind ∧ x.pubkey = e.pubkey ∧ x.content = e.content ∧
          x.created_at = e.created_at)) := by
      intro x hx hcontra
      exact hdup ((isDuplicate_eq_true_iff _ _).2 ⟨x, hx, hcontra⟩)
    refine ⟨by simp [hdupf], by simp, ?_, ?_, ?_⟩
    · intro hcount
      exfalso
      have hpos : 0 < (ZapEventCache.getEventsVal c viewId).countP (fun x => x.id == e.id) := by
        omega
      obtain ⟨x, hx, hpx⟩ := List.countP_pos_iff.1 hpos
      exact hnone x hx (Or.inl (by simpa using hpx))
    · intro hcount
      exfalso
      have hpos : 0 < (ZapEventCache.getEventsVal c viewId).countP (fun x => sameQuad x e) := by
        omega
      obtain ⟨x, hx, hpx⟩ := List.countP_pos_iff.1 hpos
      refine hnone x hx (Or.inr ?_)
      have hq := hpx
      simp only [sameQuad, Bool.and_eq_true, beq_iff_eq] at hq
      tauto
    · intro _
      rw [(sortDesc_perm _).countP_eq, List.countP_append]
      have hz : (ZapEventCache.getEventsVal c viewId).countP (fun x => x.id == e.id) = 0 := by
        rw [List.countP_eq_zero]
        intro x hx
        simp only [beq_iff_eq]
        intro hcontra
        exact hnone x hx (Or.inl hcontra)
      rw [hz]
      simp [List.countP_cons]

/-- A fresh Event Store (the JS class inherits BaseCache's default
capacity of 1000 views). -/
def zapEventCacheInit : ZapEventCache := BaseCache.empty String (List Event) 1000

/-- A concrete receipt event used by witnesses. -/
def evW : Event :=
  { id := "w1", kind := 9735, pubkey := "pk", content := "", created_at := 100 }

/-- Witness: C4 applied to a fresh store and a concrete event. -/
theorem C4_witness : (ZapEventCache.addEvent zapEventCacheInit "view1" evW).1 = true :=
  ((C4_addEvent_dedup zapEventCacheInit "view1" evW (by decide)).1).mpr (by decide)

/-! ### Order invariant of the Event Store (C5) -/

theorem mem_assocSet_entries {K V : Type} [DecidableEq K] (l : List (K × V)) (k : K) (v : V) :
    ∀ p ∈ assocSet l k v, p ∈ l ∨ p = (k, v) := by
  induction l with
  | nil =>
      intro p hp
      simp only [assocSet, List.mem_singleton] at hp
      exact Or.inr hp
  | cons q t ih =>
      obtain ⟨k₀, v₀⟩ := q
      intro p hp
      by_cases h : k₀ = k
      · rw [assocSet, if_pos h] at hp
        rcases List.mem_cons.1 hp with rfl | hp'
        · exact Or.inr rfl
        · exact Or.inl (List.mem_cons_of_mem _ hp')
      · rw [assocSet, if_neg h] at hp
        rcases List.mem_cons.1 hp with rfl | hp'
        · exact Or.inl (List.mem_cons_self _ _)
        · rcases ih p hp' with h1 | h1
          · exact Or.inl (List.mem_cons_of_mem _ h1)
          · exact Or.inr h1

theorem lookupVal_mem {K V : Type} [DecidableEq K] (l : List (K × V)) (k : K) (w : V)
    (h : lookupVal l k = some w) : (k, w) ∈ l := by
  induction l with
  | nil => simp [lookupVal] at h
  | cons q t ih =>
      obtain ⟨k₀, v₀⟩ := q
      by_cases hk : k₀ = k
      · rw [lookupVal, if_pos hk] at h
        obtain rfl : v₀ = w := by injection h
        subst hk
        exact List.mem_cons_self _ _
      · rw [lookupVal, if_neg hk] at h
        exact List.mem_cons_of_mem _ (ih h)

theorem BaseCache.mem_set_entries {K V : Type} [DecidableEq K] (c : BaseCache K V)
    (k : K) (v : V) : ∀ p ∈ (c.set k v).cache, p ∈ c.cache ∨ p = (k, v) := by
  intro p hp
  unfold BaseCache.set at hp
  dsimp only at hp
  rcases mem_assocSet_entries _ _ _ p hp with h | h
  · by_cases hcond : c.maxSize ≤ c.cache.length ∧ c.hasKey k = false
    · rw [if_pos hcond] at h
      rcases hh : c.accessOrder.head? with _ | oldest
      · rw [hh] at h
        exact Or.inl h
      · simp only [hh] at h
        exact Or.inl ((assocDelete_sublist c.cache oldest).subset h)
    · rw [if_neg hcond] at h
      exact Or.inl h
  · exact Or.inr h

theorem mem_setEvents_entries (c2 : ZapEventCache) (viewId : String) (sorted : List Event)
    (h : lookupVal c2.cache viewId = some sorted ∨ lookupVal c2.cache viewId = none) :
    ∀ p ∈ (ZapEventCache.setEvents c2 viewId sorted true).cache,
      p ∈ c2.cache ∨ p = (viewId, sorted) := by
  intro p hp
  unfold ZapEventCache.setEvents ZapEventCache.getEvents at hp
  dsimp only at hp
  rw [if_pos rfl, BaseCache.get_fst] at hp
  rcases h with h | h
  · rw [h] at hp
    rw [show (some sorted).getD [] = sorted from rfl, filter_self_ids] at hp
    rcases BaseCache.mem_set_entries _ _ _ p hp with h1 | h1
    · rw [BaseCache.get_snd_cache] at h1
      exact Or.inl h1
    · right
      simpa using h1
  · rw [h] at hp
    rw [show (none : Option (List Event)).getD [] = ([] : List Event) from rfl] at hp
    rw [show (([] : List Event).filter fun e => !(sorted.any fun n => n.id == e.id)) = []
      from rfl] at hp
    rcases BaseCache.mem_set_entries _ _ _ p hp with h1 | h1
    · rw [BaseCache.get_snd_cache] at h1
      exact Or.inl h1
    · right
      simpa using h1

/-- Every entry stored after an `addEvent` is either an old entry or the
re-sorted list written for `viewId`. -/
theorem mem_addEvent_entries (c : ZapEventCache) (viewId : String) (e : Event) :
    ∀ p ∈ (ZapEventCache.addEvent c viewId e).2.cache,
      p ∈ c.cache ∨ p.2 = sortDesc (ZapEventCache.getEventsVal c viewId ++ [e]) := by
  intro p hp
  unfold ZapEventCache.addEvent at hp
  by_cases hid : e.id = ""
  · rw [if_pos hid] at hp
    exact Or.inl hp
  · rw [if_neg hid] at hp
    dsimp only at hp
    by_cases hdup : isDuplicate (ZapEventCache.getEvents c viewId).1 e = true
    · rw [if_pos hdup] at hp
      dsimp only at hp
      rw [show (ZapEventCache.getEvents c viewId).2.cache = c.cache from
        BaseCache.get_snd_cache c viewId] at hp
      exact Or.inl hp
    · rw [if_neg hdup] at hp
      dsimp only at hp
      have hsnd : (ZapEventCache.getEvents c viewId).2.cache = c.cache :=
        BaseCache.get_snd_cache c viewId
      have hfst : (ZapEventCache.getEvents c viewId).1
          = ZapEventCache.getEventsVal c viewId := ZapEventCache.getEvents_fst c viewId
      rw [hfst] at hp
      rcases hl : lookupVal c.cache viewId with _ | l
      · -- unknown view: the in-place branch is skipped
        have hcond : (lookupVal (ZapEventCache.getEvents c viewId).2.cache viewId).isSome
            = false := by rw [hsnd, hl]; rfl
        rw [hcond] at hp
        simp only [Bool.false_eq_true, if_false] at hp
        rcases mem_setEvents_entries _ _ _ (Or.inr (by rw [hsnd, hl])) p hp with h1 | h1
        · rw [hsnd] at h1
          exact Or.inl h1
        · right
          rw [h1]
      · -- stored view: the array is rewritten in place first
        have hcond : (lookupVal (ZapEventCache.getEvents c viewId).2.cache viewId).isSome
            = true := by rw [hsnd, hl]; rfl
        rw [hcond] at hp
        simp only [if_true] at hp
        rcases mem_setEvents_entries _ _ _
            (Or.inl (by
              show lookupVal (assocSet (ZapEventCache.getEvents c viewId).2.cache viewId
                (sortDesc (ZapEventCache.getEventsVal c viewId ++ [e]))) viewId = _
              exact lookupVal_assocSet_self _ _ _)) p hp with h1 | h1
        · dsimp only at h1
          rcases mem_assocSet_entries _ _ _ p h1 with h2 | h2
          · rw [hsnd] at h2
            exact Or.inl h2
          · right
            rw [h2]
        · right
          rw [h1]

def SortedDesc (l : List Event) : Prop :=
  List.Pairwise (fun a b => b.created_at ≤ a.created_at) l

theorem sortedDesc_insertDesc (e : Event) (l : List Event) (h : SortedDesc l) :
    SortedDesc (insertDesc e l) := by
  induction l with
  | nil =>
      unfold SortedDesc insertDesc
      simp
  | cons x xs ih =>
      obtain ⟨hx, hxs⟩ := List.pairwise_cons.1 h
      by_cases hc : e.created_at < x.created_at
      · rw [insertDesc, if_pos hc]
        refine List.pairwise_cons.2 ⟨?_, ih hxs⟩
        intro y hy
        rcases List.mem_cons.1 ((insertDesc_perm e xs).mem_iff.1 hy) with rfl | hy'
        · exact le_of_lt hc
        · exact hx y hy'
      · rw [insertDesc, if_neg hc]
        refine List.pairwise_cons.2 ⟨?_, h⟩
        intro y hy
        rcases List.mem_cons.1 hy with rfl | hy'
        · exact not_lt.1 hc
        · exact le_trans (hx y hy') (not_lt.1 hc)

theorem sortedDesc_sortDesc (l : List Event) : SortedDesc (sortDesc l) := by
  induction l with
  | nil =>
      unfold SortedDesc sortDesc
      simp
  | cons x xs ih => exact sortedDesc_insertDesc x _ ih

/-- All lists stored in the Event Store are sorted descending. -/
def allSorted (c : ZapEventCache) : Prop := ∀ p ∈ c.cache, SortedDesc p.2

theorem allSorted_addEvent (c : ZapEventCache) (viewId : String) (e : Event)
    (h : allSorted c) : allSorted (ZapEventCache.addEvent c viewId e).2 := by
  intro p hp
  rcases mem_addEvent_entries c viewId e p hp with h1 | h1
  · exact h p h1
  · rw [h1]
    exact sortedDesc_sortDesc _

/-- C5: starting from a fresh Event Store, after any sequence of
`addEvent` calls (any views, any events), `getEvents(viewId)` is sorted by
`created_at` descending (ties in any order). -/
theorem C5_getEvents_sorted (ops : List (String × Event)) (viewId : String) :
    List.Pairwise (fun a b => b.created_at ≤ a.created_at)
      (ZapEventCache.getEvents
        (ops.foldl (fun c q => (ZapEventCache.addEvent c q.1 q.2).2) zapEventCacheInit)
        viewId).1 := by
  have main : ∀ (ops : List (String × Event)) (c : ZapEventCache), allSorted c →
      allSorted (ops.foldl (fun c q => (ZapEventCache.addEvent c q.1 q.2).2) c) := by
    intro ops
    induction ops with
    | nil => intro c hc; exact hc
    | cons q t ih =>
        intro c hc
        exact ih _ (allSorted_addEvent c q.1 q.2 hc)
  have hall : allSorted
      (ops.foldl (fun c q => (ZapEventCache.addEvent c q.1 q.2).2) zapEventCacheInit) :=
    main ops zapEventCacheInit (by intro p hp; simp [zapEventCacheInit, BaseCache.empty] at hp)
  rw [ZapEventCache.getEvents_fst]
  unfold ZapEventCache.getEventsVal
  rcases hl : lookupVal
      (ops.foldl (fun c q => (ZapEventCache.addEvent c q.1 q.2).2) zapEventCacheInit).cache
      viewId with _ | l
  · rw [hl]
    exact List.Pairwise.nil
  · rw [hl]
    exact hall _ (lookupVal_mem _ _ _ hl)

/-! ### Load state and the pagination coordinator
(`ZapSubscriptionManager` in the StatsUI.js bundle) -/

/-- `LoadStateCache.initializeLoadState` / `getLoadState`
(CacheManager.js lines 254–292): the per-view load state. -/
structure LoadState where
  isInitialFetchComplete : Bool
  lastEventTime : Option Int
  isLoading : Bool
  currentCount : Nat
  deriving DecidableEq, Repr

/-- `ZapSubscriptionManager._canLoadMore(state, config)` (StatsUI.js bundle
lines 550–553): `config && !state.isLoading && state.lastEventTime`.
A JS number is truthy iff it is nonzero, hence the `t != 0` test. -/
def canLoadMore (hasConfig : Bool) (s : LoadState) : Bool :=
  hasConfig && !s.isLoading &&
    (match s.lastEventTime with
     | none => false
     | some t => t != 0)

/-- The `onevent` loop of `_collectEvents` (lines 427–450): only events
strictly older than the *current* cursor are kept, and the cursor is
lowered as the batch is collected; collection stops once the batch size is
reached (the promise resolves) or at end of stream. -/
def collectEventsGo (batchSize : Nat) : List Event → List Event → Int → List Event × Int
  | [], batch, cur => (batch, cur)
  | e :: rest, batch, cur =>
      if batchSize ≤ batch.length then (batch, cur)
      else if e.created_at < cur then
        collectEventsGo batchSize rest (batch ++ [e]) (min cur e.created_at)
      else collectEventsGo batchSize rest batch cur

/-- `_collectEvents(viewId, config, decoded, batchEvents, batchSize, state)`
on a subscription that delivers `arrivals` in order, starting from cursor
`cur` (`state.lastEventTime`). -/
def collectEvents (batchSize : Nat) (arrivals : List Event) (cur : Int) :
    List Event × Int :=
  collectEventsGo batchSize arrivals [] cur

/-- `_processBatchEvents(events, viewId)` (lines 510–525) restricted to its
Event Store effect on one view's list: sort the batch descending, then
`addZapEvent` each event in order (profile fetching and UI notification
are fire-and-forget collaborator calls). -/
def processBatchEvents (store : List Event) (batch : List Event) : List Event :=
  (sortDesc batch).foldl (fun st e => (addEventL st e).2) store

/-- Outcome of the transport during one pagination batch:
either the subscription delivers events (ending with end-of-stream), or
the batch fails (the `_collectEvents` timeout rejection or a transport
error), which `_executeLoadMore` catches and turns into zero results. -/
inductive BatchOutcome where
  | events (arrivals : List Event)
  | failure
  deriving Repr

/-- `_executeLoadMore(viewId, state, config)` (lines 391–425): decode
failure returns 0; a caught error returns 0; otherwise collect a batch,
process it into the Event Store, and report `batchEvents.length`.
Returns (reported count, view's event list, cursor). -/
def executeLoadMore (store : List Event) (cursor : Int) (batchSize : Nat)
    (decodeOk : Bool) (out : BatchOutcome) : Nat × List Event × Int :=
  if decodeOk = false then (0, store, cursor)
  else
    match out with
    | .failure => (0, store, cursor)
    | .events arrivals =>
        let p := collectEvents batchSize arrivals cursor
        (p.1.length, processBatchEvents store p.1, p.2)

structure LoadMoreResult where
  result : Except Unit Nat
  opened : Bool
  store : List Event
  state : LoadState
  deriving Repr

/-- `loadMoreZaps(viewId)` (lines 361–389), per view.  `hasConfig` is
whether `getViewConfig(viewId)` is set; `refsOk` is whether the
post-load `updateEventReferenceBatch` phase throws (it runs only when
`loadedCount > 0`; an exception propagates after the `finally` resets
`isLoading`).  `opened` records whether `_executeLoadMore` reached
`subscribeToZaps` (it does exactly when decoding succeeds).  The cursor
mutation done inside `_collectEvents` via `state.lastEventTime` persists
because `state` is the object stored in the LoadStateCache. -/
def loadMoreZaps (store : List Event) (s : LoadState) (hasConfig : Bool)
    (batchSize : Nat) (decodeOk : Bool) (out : BatchOutcome) (refsOk : Bool) :
    LoadMoreResult :=
  if canLoadMore hasConfig s = false then
    { result := Except.ok 0, opened := false, store := store, state := s }
  else
    let s1 : LoadState := { s with isLoading := true }
    let cursor := s1.lastEventTime.getD 0
    let r := executeLoadMore store cursor batchSize decodeOk out
    let s2 : LoadState := { s1 with lastEventTime := some r.2.2 }
    if r.1 ≠ 0 ∧ refsOk = false then
      { result := Except.error (), opened := decodeOk, store := r.2.1,
        state := { s2 with isLoading := false } }
    else
      { result := Except.ok r.1, opened := decodeOk, store := r.2.1,
        state := { s2 with isLoading := false } }

inductive IntersectionOutcome where
  | ignored
  | deferred
  | ran (r : LoadMoreResult) (disarmed : Bool)
  deriving Repr

/-- `_handleIntersection(entry, viewId)` (lines 319–343): nothing happens
while the trigger is off-screen; while `state.isLoading` a retry is
scheduled (`deferred`); otherwise `loadMoreZaps` runs and
`_cleanupInfiniteScroll` (observer disconnect + trigger removal) fires
when the count is 0 or the promise rejected. -/
def handleIntersection (isIntersecting : Bool) (store : List Event) (s : LoadState)
    (hasConfig : Bool) (batchSize : Nat) (decodeOk : Bool) (out : BatchOutcome)
    (refsOk : Bool) : IntersectionOutcome :=
  if isIntersecting = false then .ignored
  else if s.isLoading then .deferred
  else
    let r := loadMoreZaps store s hasConfig batchSize decodeOk out refsOk
    match r.result with
    | .ok n => .ran r (n == 0)
    | .error _ => .ran r true

/-- `_handleInitialEvent(event, batchEvents, lastEventTime, viewId)`
(lines 478–507): the new cursor `Math.min(lastEventTime ||
event.created_at, event.created_at)` is computed *before* (and regardless
of) the dedup check; `addZapEvent` decides acceptance.  Returns
(accepted, view's event list, returned cursor). -/
def handleInitialEvent (store : List Event) (lastEventTime : Option Int) (e : Event) :
    Bool × List Event × Int :=
  let base : Int :=
    match lastEventTime with
    | none => e.created_at
    | some t => if t = 0 then e.created_at else t
  let currentLastTime := min base e.created_at
  let p := addEventL store e
  (p.1, p.2, currentLastTime)

/-- `_collectInitialEvents` (lines 452–476): fold the initial subscription's
arrivals through `_handleInitialEvent`, updating the local `lastEventTime`
with every returned value (the returned number is never `null`). -/
def collectInitialEvents (store : List Event) (arrivals : List Event) :
    List Event × Option Int :=
  arrivals.foldl
    (fun acc e =>
      let r := handleInitialEvent acc.1 acc.2 e
      (r.2.1, some r.2.2))
    (store, (none : Option Int))

/-! ### The C1 pagination scenario -/

/-- The event already in the Event Store (createdAt 1000). -/
def evA : Event :=
  { id := "a1", kind := 9735, pubkey := "p1", content := "za", created_at := 1000 }

def ev980 : Event :=
  { id := "b980", kind := 9735, pubkey := "p2", content := "zb", created_at := 980 }

def ev950 : Event :=
  { id := "b950", kind := 9735, pubkey := "p3", content := "zc", created_at := 950 }

def ev920 : Event :=
  { id := "b920", kind := 9735, pubkey := "p4", content := "zd", created_at := 920 }

/-- The pagination batch's duplicate delivery of the stored event. -/
def evDup1000 : Event := evA

/-- The view's load state in the C1 scenario: steady, cursor 1000. -/
def c1State : LoadState :=
  { isInitialFetchComplete := true, lastEventTime := some 1000,
    isLoading := false, currentCount := 0 }

/-- C1 (counterexample): the claim promises that *in any arrival order*
the batch {950, 980, 1000(dup), 920} yields accepted set {950, 980, 920},
cursor 920 and count 3.  With arrival order 950, 980, 1000, 920 the code
reports 2 and never accepts the 980 event: `_collectEvents` lowers
`state.lastEventTime` to 950 when the 950 event arrives, so the later 980
event fails the `event.created_at < state.lastEventTime` filter and is
dropped. -/
theorem C1_counterexample :
    (loadMoreZaps [evA] c1State true 20 true
        (BatchOutcome.events [ev950, ev980, evDup1000, ev920]) true).result
        = Except.ok 2 ∧
      ev980 ∉ (loadMoreZaps [evA] c1State true 20 true
        (BatchOutcome.events [ev950, ev980, evDup1000, ev920]) true).store := by
  constructor
  · rfl
  · decide

/-- C1 (amended): when the pagination subscription delivers the batch in
descending `createdAt` order — 1000(dup), 980, 950, 920, the order the
cursor-filter logic is built for — and the configured batch size is at
least 3, the view accepts exactly the events with createdAt 950, 980 and
920, moves the cursor to 920, and reports 3 to the caller (the 1000
duplicate is dropped by the `created_at < lastEventTime` filter before it
even reaches dedup). -/
theorem C1_amended_descending (batchSize : Nat) (h : 3 ≤ batchSize) :
    loadMoreZaps [evA] c1State true batchSize true
        (BatchOutcome.events [evDup1000, ev980, ev950, ev920]) true =
      { result := Except.ok 3, opened := true,
        store := [evA, ev980, ev950, ev920],
        state := { isInitialFetchComplete := true, lastEventTime := some 920,
                   isLoading := false, currentCount := 0 } } := by
  obtain ⟨k, rfl⟩ : ∃ k, batchSize = k + 3 := ⟨batchSize - 3, by omega⟩
  rfl

/-- Witness: the amended C1 statement at batch size 20. -/
theorem C1_amended_witness :
    loadMoreZaps [evA] c1State true 20 true
        (BatchOutcome.events [evDup1000, ev980, ev950, ev920]) true =
      { result := Except.ok 3, opened := true,
        store := [evA, ev980, ev950, ev920],
        state := { isInitialFetchComplete := true, lastEventTime := some 920,
                   isLoading := false, currentCount := 0 } } :=
  C1_amended_descending 20 (by omega)

/-- C3: `loadMoreZaps` opens a pagination subscription only from a state
with `isLoading = false` and a non-null cursor; a call made while
`isLoading = true` is a complete no-op (returns 0, opens nothing, leaves
state and store untouched); and every call that starts from a non-loading
state — success, zero result, decode failure, batch failure, or an
exception in the reference phase — completes with `isLoading = false`. -/
theorem C3_load_guard (store : List Event) (s : LoadState) (hasConfig : Bool)
    (batchSize : Nat) (decodeOk : Bool) (out : BatchOutcome) (refsOk : Bool) :
    ((loadMoreZaps store s hasConfig batchSize decodeOk out refsOk).opened = true →
        s.isLoading = false ∧ s.lastEventTime ≠ none)
    ∧ (s.isLoading = true →
        loadMoreZaps store s hasConfig batchSize decodeOk out refsOk =
          { result := Except.ok 0, opened := false, store := store, state := s })
    ∧ (s.isLoading = false →
        (loadMoreZaps store s hasConfig batchSize decodeOk out refsOk).state.isLoading
          = false) := by
  by_cases hg : canLoadMore hasConfig s = false
  · unfold loadMoreZaps
    rw [if_pos hg]
    refine ⟨?_, ?_, ?_⟩
    · intro hop
      exact absurd hop (by simp)
    · intro _
      rfl
    · intro hload
      exact hload
  · have hgt : canLoadMore hasConfig s = true := by
      rcases hb : canLoadMore hasConfig s
      · exact absurd hb hg
      · rfl
    have hload : s.isLoading = false := by
      rcases hb : s.isLoading
      · rfl
      · unfold canLoadMore at hgt
        rw [hb] at hgt
        simp at hgt
    have hlt : s.lastEventTime ≠ none := by
      intro hn
      unfold canLoadMore at hgt
      rw [hn] at hgt
      simp at hgt
    refine ⟨fun _ => ⟨hload, hlt⟩, ?_, ?_⟩
    · intro hcontra
      rw [hload] at hcontra
      exact absurd hcontra (by simp)
    · intro _
      unfold loadMoreZaps
      rw [if_neg hg]
      dsimp only
      split
      · rfl
      · rfl

/-- A load state stuck mid-pagination, for the C3 witness. -/
def c3Loading : LoadState :=
  { isInitialFetchComplete := true, lastEventTime := some 500,
    isLoading := true, currentCount := 0 }

/-- Witness: a call made while `isLoading = true` is a no-op. -/
theorem C3_witness :
    loadMoreZaps [] c3Loading true 5 true BatchOutcome.failure true =
      { result := Except.ok 0, opened := false, store := [], state := c3Loading } :=
  (C3_load_guard [] c3Loading true 5 true BatchOutcome.failure true).2.1 rfl

/-! ### Cursor behaviour (C9) -/

theorem collectEventsGo_prefix (batchSize : Nat) :
    ∀ (arr batch : List Event) (cur : Int),
      ∃ t, (collectEventsGo batchSize arr batch cur).1 = batch ++ t := by
  intro arr
  induction arr with
  | nil =>
      intro batch cur
      exact ⟨[], by simp [collectEventsGo]⟩
  | cons e rest ih =>
      intro batch cur
      unfold collectEventsGo
      by_cases hb : batchSize ≤ batch.length
      · rw [if_pos hb]
        exact ⟨[], by simp⟩
      · rw [if_neg hb]
        by_cases hc : e.created_at < cur
        · rw [if_pos hc]
          obtain ⟨t, ht⟩ := ih (batch ++ [e]) (min cur e.created_at)
          exact ⟨e :: t, by rw [ht]; simp⟩
        · rw [if_neg hc]
          exact ih batch cur

theorem collectEventsGo_cursor (batchSize : Nat) :
    ∀ (arr batch : List Event) (cur : Int),
      (collectEventsGo batchSize arr batch cur).2 =
        ((collectEventsGo batchSize arr batch cur).1.drop batch.length).foldl
          (fun c x => min c x.created_at) cur := by
  intro arr
  induction arr with
  | nil =>
      intro batch cur
      simp [collectEventsGo]
  | cons e rest ih =>
      intro batch cur
      unfold collectEventsGo
      by_cases hb : batchSize ≤ batch.length
      · rw [if_pos hb]
        simp
      · rw [if_neg hb]
        by_cases hc : e.created_at < cur
        · rw [if_pos hc]
          have heq := ih (batch ++ [e]) (min cur e.created_at)
          obtain ⟨t, ht⟩ :=
            collectEventsGo_prefix batchSize rest (batch ++ [e]) (min cur e.created_at)
          rw [heq, ht, List.drop_left]
          have hsplit : (batch ++ [e]) ++ t = batch ++ (e :: t) := by simp
          rw [hsplit, List.drop_left]
          rfl
        · rw [if_neg hc]
          exact ih batch cur

theorem foldl_min_le : ∀ (l : List Event) (c : Int),
    l.foldl (fun c x => min c x.created_at) c ≤ c := by
  intro l
  induction l with
  | nil =>
      intro c
      simp
  | cons x xs ih =>
      intro c
      rw [List.foldl_cons]
      exact le_trans (ih _) (min_le_left _ _)

/-- A duplicate delivery of the same receipt id with a smaller timestamp
(C9 counterexample input). -/
def c9A : Event :=
  { id := "c9", kind := 9735, pubkey := "p9", content := "x", created_at := 1000 }

def c9B : Event :=
  { id := "c9", kind := 9735, pubkey := "p9", content := "y", created_at := 900 }

/-- C9 (counterexample): during initial collection the cursor is computed
*before* the dedup check and is kept whether or not the event was
accepted.  After accepting `c9A` (cursor 1000), the delivery `c9B` —
rejected as a duplicate because it carries the same id — still moves the
cursor to 900, although the claim says rejected events do not move it. -/
theorem C9_counterexample :
    (collectInitialEvents [] [c9A]).2 = some 1000 ∧
      (addEventL [c9A] c9B).1 = false ∧
      (collectInitialEvents [] [c9A, c9B]).2 = some 900 :=
  ⟨rfl, rfl, rfl⟩

/-- C9 (amended): the cursor never increases once set (for a positive
cursor value; `lastEventTime || event.created_at` treats a 0 cursor as
unset), and after each ingestion step it equals the minimum of its
previous value and the `createdAt` of each *arriving* event — in the
initial phase the minimum is taken over every delivery, accepted or
rejected as duplicate alike; in the pagination phase it is the fold of
`min` over the collected batch. -/
theorem C9_amended_cursor (store : List Event) (t0 : Int) (e : Event)
    (batchSize : Nat) (arrivals : List Event) (cur : Int) (h : 0 < t0) :
    ((handleInitialEvent store (some t0) e).2.2 = min t0 e.created_at
      ∧ (handleInitialEvent store (some t0) e).2.2 ≤ t0)
    ∧ ((collectEvents batchSize arrivals cur).2 =
          (collectEvents batchSize arrivals cur).1.foldl
            (fun c x => min c x.created_at) cur
      ∧ (collectEvents batchSize arrivals cur).2 ≤ cur) := by
  have hbase : (handleInitialEvent store (some t0) e).2.2
      = min (if t0 = 0 then e.created_at else t0) e.created_at := rfl
  have ht0 : ¬ t0 = 0 := by omega
  have hcur := collectEventsGo_cursor batchSize arrivals [] cur
  simp only [List.length_nil, List.drop_zero] at hcur
  refine ⟨⟨?_, ?_⟩, ?_, ?_⟩
  · rw [hbase, if_neg ht0]
  · rw [hbase, if_neg ht0]
    exact min_le_left _ _
  · exact hcur
  · rw [show collectEvents batchSize arrivals cur
        = collectEventsGo batchSize arrivals [] cur from rfl, hcur]
    exact foldl_min_le _ _

/-- Witness: the amended C9 monotonicity at cursor 1000. -/
theorem C9_amended_witness : (handleInitialEvent [] (some 1000) c9B).2.2 ≤ 1000 :=
  (C9_amended_cursor [] 1000 c9B 5 [] 0 (by omega)).1.2

/-! ### ReferenceCache (`CacheManager.js` lines 132–179) -/

/-- `class ReferenceCache extends BaseCache`: the inherited value map plus
the private `#pendingFetches` map of in-flight promises (modelled by the
ordered list of their keys). -/
structure RefCache (V : Type) where
  base : BaseCache String V
  pendingFetches : List String
  deriving Repr

inductive RefStartResult (V : Type) where
  | hit (v : V)
  | joined
  | started
  deriving Repr

def isStarted {V : Type} : RefStartResult V → Bool
  | .started => true
  | _ => false

/-- The synchronous part of `getOrFetch(eventId, fetchFn)` (lines 136–155):
a cached value is returned immediately (`hit`); an in-flight fetch is
joined — the same pending promise is returned and `fetchFn` is *not*
invoked (`joined`); otherwise `fetchFn()` is invoked here and its promise
is registered in `#pendingFetches` (`started`).  Values cached by
`getOrFetch` are non-null references, so the JS truthiness test
`if (cached)` is a presence test. -/
def RefCache.getOrFetchStart {V : Type} (c : RefCache V) (eventId : String) :
    RefStartResult V × RefCache V :=
  let g := BaseCache.get c.base eventId
  match g.1 with
  | some v => (RefStartResult.hit v, { c with base := g.2 })
  | none =>
      if eventId ∈ c.pendingFetches then (RefStartResult.joined, { c with base := g.2 })
      else
        (RefStartResult.started,
          { c with base := g.2, pendingFetches := c.pendingFetches ++ [eventId] })

/-- How the underlying fetch settles: fulfilled with a reference (possibly
null), or rejected. -/
inductive FetchOutcome (V : Type) where
  | success (reference : Option V)
  | failure
  deriving Repr

/-- The `.then`/`.catch` continuation of `getOrFetch`: on fulfilment cache
the reference only if non-null, delete the in-flight marker, and return
the reference; on rejection log, delete the in-flight marker, and return
null.  Nothing here re-registers a fetch. -/
def RefCache.settle {V : Type} (c : RefCache V) (eventId : String)
    (out : FetchOutcome V) : Option V × RefCache V :=
  match out with
  | .success reference =>
      let base1 := match reference with
        | some r => BaseCache.set c.base eventId r
        | none => c.base
      (reference,
        { base := base1,
          pendingFetches := c.pendingFetches.filter (fun x => x ≠ eventId) })
  | .failure =>
      (none, { c with pendingFetches := c.pendingFetches.filter (fun x => x ≠ eventId) })

/-- C7: two `getOrFetch` calls for the same event id, the second issued
while the first call's fetch is in flight, behave single-flight: the first
invokes the fetch and registers it, the second joins the same pending
computation without touching the state, and the fetch function is invoked
exactly once across the two calls. -/
theorem C7_single_flight {V : Type} (c : RefCache V) (eventId : String)
    (hmiss : lookupVal c.base.cache eventId = none)
    (hpend : eventId ∉ c.pendingFetches) :
    (c.getOrFetchStart eventId).1 = RefStartResult.started ∧
      (((c.getOrFetchStart eventId).2).getOrFetchStart eventId).1
        = RefStartResult.joined ∧
      (((c.getOrFetchStart eventId).2).getOrFetchStart eventId).2
        = (c.getOrFetchStart eventId).2 ∧
      ([(c.getOrFetchStart eventId).1,
        (((c.getOrFetchStart eventId).2).getOrFetchStart eventId).1].countP isStarted
        = 1) := by
  have hg : BaseCache.get c.base eventId = (none, c.base) := by
    unfold BaseCache.get
    rw [hmiss]
  have h1 : c.getOrFetchStart eventId =
      (RefStartResult.started,
        { c with pendingFetches := c.pendingFetches ++ [eventId] }) := by
    unfold RefCache.getOrFetchStart
    rw [hg]
    dsimp only
    rw [if_neg hpend]
  have hmem : eventId ∈ c.pendingFetches ++ [eventId] := by simp
  have h2 : (({ c with pendingFetches := c.pendingFetches ++ [eventId] } :
      RefCache V)).getOrFetchStart eventId =
      (RefStartResult.joined,
        { c with pendingFetches := c.pendingFetches ++ [eventId] }) := by
    unfold RefCache.getOrFetchStart
    rw [show BaseCache.get ({ c with pendingFetches := c.pendingFetches ++ [eventId] } :
      RefCache V).base eventId = (none, c.base) from hg]
    dsimp only
    rw [if_pos hmem]
  rw [h1]
  dsimp only
  rw [h2]
  exact ⟨rfl, rfl, rfl, rfl⟩

/-- An empty reference cache over `Nat` payloads, for the C7 witness. -/
def refCacheEmpty : RefCache Nat :=
  { base := BaseCache.empty String Nat 1000, pendingFetches := [] }

/-- Witness: across the two concurrent calls the fetch starts once. -/
theorem C7_witness :
    [(refCacheEmpty.getOrFetchStart "ev1").1,
      (((refCacheEmpty.getOrFetchStart "ev1").2).getOrFetchStart "ev1").1].countP isStarted
      = 1 :=
  (C7_single_flight refCacheEmpty "ev1" rfl (by decide)).2.2.2

/-- C8: settling a fetch clears the in-flight marker in every case (and
registers nothing new — no automatic retry); a failed fetch returns null
and caches nothing; a null result is returned but not cached; a non-null
result is returned and cached under the event id. -/
theorem C8_settle_contract {V : Type} (c : RefCache V) (eventId : String)
    (out : FetchOutcome V) :
    (eventId ∉ ((c.settle eventId out).2).pendingFetches)
    ∧ ((c.settle eventId out).2).pendingFetches
        = c.pendingFetches.filter (fun x => x ≠ eventId)
    ∧ (out = FetchOutcome.failure →
        (c.settle eventId out).1 = none ∧ ((c.settle eventId out).2).base = c.base)
    ∧ (out = FetchOutcome.success none →
        (c.settle eventId out).1 = none ∧ ((c.settle eventId out).2).base = c.base)
    ∧ (∀ v : V, out = FetchOutcome.success (some v) →
        (c.settle eventId out).1 = some v ∧
          lookupVal ((c.settle eventId out).2).base.cache eventId = some v) := by
  have hnp : eventId ∉ c.pendingFetches.filter (fun x => x ≠ eventId) := by
    intro hmem
    rcases List.mem_filter.1 hmem with ⟨_, hx⟩
    simp at hx
  cases out with
  | success reference =>
      cases reference with
      | none =>
          refine ⟨hnp, rfl, ?_, fun _ => ⟨rfl, rfl⟩, ?_⟩
          · intro hcontra
            exact absurd hcontra (by simp)
          · intro v hv
            exact absurd hv (by simp)
      | some r =>
          refine ⟨hnp, rfl, ?_, ?_, ?_⟩
          · intro hcontra
            exact absurd hcontra (by simp)
          · intro hcontra
            exact absurd hcontra (by simp)
          · intro v hv
            obtain rfl : r = v := by
              injection hv with h1
              injection h1 with h2
            exact ⟨rfl, BaseCache.set_lookup_self _ _ _⟩
  | failure =>
      refine ⟨hnp, rfl, fun _ => ⟨rfl, rfl⟩, ?_, ?_⟩
      · intro hcontra
        exact absurd hcontra (by simp)
      · intro v hv
        exact absurd hv (by simp)

/-- A reference cache with one in-flight fetch, for the C8 witness. -/
def refCacheW : RefCache Nat :=
  { base := BaseCache.empty String Nat 1000, pendingFetches := ["e8"] }

/-- Witness: a failed fetch returns null, caches nothing, and clears the
in-flight marker. -/
theorem C8_witness :
    (refCacheW.settle "e8" FetchOutcome.failure).1 = none ∧
      ((refCacheW.settle "e8" FetchOutcome.failure).2).base = refCacheW.base :=
  (C8_settle_contract refCacheW "e8" FetchOutcome.failure).2.2.1 rfl

/-! ### Pagination termination (C10) -/

/-- Facts about a collected pagination batch: every collected event comes
from the subscription's deliveries and is strictly older than the initial
cursor, and the batch is strictly decreasing in `created_at` (each push
lowers the cursor below the pushed event's timestamp). -/
theorem collectEventsGo_facts (batchSize : Nat) (cur₀ : Int) (P : Event → Prop) :
    ∀ (arr batch : List Event) (cur : Int),
      (∀ e ∈ arr, P e) → (∀ b ∈ batch, P b) →
      (∀ b ∈ batch, b.created_at < cur₀) →
      List.Pairwise (fun a b => b.created_at < a.created_at) batch →
      cur ≤ cur₀ → (∀ b ∈ batch, cur ≤ b.created_at) →
      (∀ b ∈ (collectEventsGo batchSize arr batch cur).1, P b ∧ b.created_at < cur₀) ∧
        List.Pairwise (fun a b => b.created_at < a.created_at)
          (collectEventsGo batchSize arr batch cur).1 := by
  intro arr
  induction arr with
  | nil =>
      intro batch cur _ hbP hblt hpair _ _
      exact ⟨fun b hb => ⟨hbP b hb, hblt b hb⟩, hpair⟩
  | cons e rest ih =>
      intro batch cur hP hbP hblt hpair hc hcb
      unfold collectEventsGo
      by_cases hbs : batchSize ≤ batch.length
      · rw [if_pos hbs]
        exact ⟨fun b hb => ⟨hbP b hb, hblt b hb⟩, hpair⟩
      · rw [if_neg hbs]
        by_cases hlt : e.created_at < cur
        · rw [if_pos hlt]
          apply ih (batch ++ [e]) (min cur e.created_at)
          · exact fun x hx => hP x (List.mem_cons_of_mem _ hx)
          · intro b hb
            rcases List.mem_append.1 hb with hb | hb
            · exact hbP b hb
            · rw [List.mem_singleton] at hb
              subst hb
              exact hP _ (List.mem_cons_self _ _)
          · intro b hb
            rcases List.mem_append.1 hb with hb | hb
            · exact hblt b hb
            · rw [List.mem_singleton] at hb
              subst hb
              exact lt_of_lt_of_le hlt hc
          · rw [List.pairwise_append]
            refine ⟨hpair, List.pairwise_singleton _ _, ?_⟩
            intro a ha b hb
            rw [List.mem_singleton] at hb
            subst hb
            exact lt_of_lt_of_le hlt (hcb a ha)
          · exact le_trans (min_le_left _ _) hc
          · intro b hb
            rcases List.mem_append.1 hb with hb | hb
            · exact le_trans (min_le_left _ _) (hcb b hb)
            · rw [List.mem_singleton] at hb
              subst hb
              exact min_le_right _ _
        · rw [if_neg hlt]
          exact ih batch cur (fun x hx => hP x (List.mem_cons_of_mem _ hx)) hbP hblt
            hpair hc hcb

/-- "Is not a duplicate of" (negation of either dedup rule). -/
def notDup (x e : Event) : Prop :=
  ¬(x.id = e.id ∨ (x.kind = e.kind ∧ x.pubkey = e.pubkey ∧ x.content = e.content ∧
      x.created_at = e.created_at))

theorem isDuplicate_eq_false_of (l : List Event) (e : Event)
    (h : ∀ x ∈ l, notDup x e) : isDuplicate l e = false := by
  rcases hb : isDuplicate l e
  · rfl
  · obtain ⟨x, hx, hor⟩ := (isDuplicate_eq_true_iff l e).1 hb
    exact absurd hor (h x hx)

theorem mem_addEventL_accept (store : List Event) (e : Event)
    (hid : e.id ≠ "") (hnd : isDuplicate store e = false) :
    (addEventL store e).1 = true ∧
      ((addEventL store e).2).length = store.length + 1 ∧
      (∀ a, a ∈ (addEventL store e).2 ↔ a ∈ store ∨ a = e) := by
  unfold addEventL
  rw [if_neg hid, if_neg (by rw [hnd]; simp)]
  refine ⟨rfl, ?_, ?_⟩
  · rw [(sortDesc_perm _).length_eq]
    simp
  · intro a
    rw [(sortDesc_perm _).mem_iff]
    simp

theorem foldl_addEventL_fresh :
    ∀ (batch store : List Event),
      (∀ e ∈ batch, e.id ≠ "") →
      (∀ e ∈ batch, ∀ x ∈ store, notDup x e) →
      List.Pairwise notDup batch →
      (batch.foldl (fun st e => (addEventL st e).2) store).length
          = store.length + batch.length := by
  intro batch
  induction batch with
  | nil =>
      intro store _ _ _
      simp
  | cons e rest ih =>
      intro store hids hfresh hpair
      obtain ⟨hpe, hprest⟩ := List.pairwise_cons.1 hpair
      rw [List.foldl_cons]
      have hacc := mem_addEventL_accept store e (hids e (List.mem_cons_self _ _))
        (isDuplicate_eq_false_of store e (fun x hx => hfresh e (List.mem_cons_self _ _) x hx))
      have hrec := ih ((addEventL store e).2)
        (fun x hx => hids x (List.mem_cons_of_mem _ hx))
        (by
          intro e' he' x hx
          rcases (hacc.2.2 x).1 hx with hx' | rfl
          · exact hfresh e' (List.mem_cons_of_mem _ he') x hx'
          · exact hpe e' he')
        hprest
      rw [hrec, hacc.2.1, List.length_cons]
      omega

theorem pairwise_notDup_of_strict (batch : List Event)
    (hpair : List.Pairwise (fun a b => b.created_at < a.created_at) batch)
    (hids : ∀ a ∈ batch, ∀ b ∈ batch, a.id = b.id → a.created_at = b.created_at) :
    List.Pairwise notDup batch := by
  induction batch with
  | nil => exact List.Pairwise.nil
  | cons x xs ih =>
      obtain ⟨hx, hxs⟩ := List.pairwise_cons.1 hpair
      refine List.pairwise_cons.2 ⟨?_, ih hxs ?_⟩
      · intro y hy
        have hlt : y.created_at < x.created_at := hx y hy
        unfold notDup
        rintro (hid | hquad)
        · have heq := hids x (List.mem_cons_self _ _) y (List.mem_cons_of_mem _ hy) hid
          omega
        · have heq := hquad.2.2.2
          omega
      · intro a ha b hb
        exact hids a (List.mem_cons_of_mem _ ha) b (List.mem_cons_of_mem _ hb)

theorem sortDesc_eq_self (l : List Event) (h : SortedDesc l) : sortDesc l = l := by
  induction l with
  | nil => rfl
  | cons x xs ih =>
      obtain ⟨hx, hxs⟩ := List.pairwise_cons.1 h
      rw [sortDesc, ih hxs]
      cases xs with
      | nil => rfl
      | cons y ys =>
          rw [insertDesc, if_neg (not_lt.2 (hx y (List.mem_cons_self _ _)))]

/-- Closed form of `loadMoreZaps` on a successfully decoded subscription
that delivers `arrivals`, from a steady state with cursor `cursor`. -/
theorem loadMoreZaps_events_eq (store : List Event) (s : LoadState) (batchSize : Nat)
    (arrivals : List Event) (cursor : Int)
    (hlt : s.lastEventTime = some cursor) (hc0 : cursor ≠ 0)
    (hload : s.isLoading = false) :
    loadMoreZaps store s true batchSize true (BatchOutcome.events arrivals) true =
      { result := Except.ok (collectEvents batchSize arrivals cursor).1.length,
        opened := true,
        store := processBatchEvents store (collectEvents batchSize arrivals cursor).1,
        state := { s with
          isLoading := false,
          lastEventTime := some (collectEvents batchSize arrivals cursor).2 } } := by
  have hguard : canLoadMore true s = true := by
    unfold canLoadMore
    rw [hload, hlt]
    simp [hc0]
  unfold loadMoreZaps
  rw [if_neg (show ¬ canLoadMore true s = false from by rw [hguard]; simp)]
  dsimp only
  rw [hlt]
  split
  · next h => simp at h
  · rfl

/-- Closed form of `loadMoreZaps` on a failed batch (timeout rejection or
transport error): the error is caught and degraded to a zero count. -/
theorem loadMoreZaps_failure_eq (store : List Event) (s : LoadState) (batchSize : Nat)
    (cursor : Int)
    (hlt : s.lastEventTime = some cursor) (hc0 : cursor ≠ 0)
    (hload : s.isLoading = false) :
    loadMoreZaps store s true batchSize true BatchOutcome.failure true =
      { result := Except.ok 0, opened := true, store := store,
        state := { s with isLoading := false, lastEventTime := some cursor } } := by
  have hguard : canLoadMore true s = true := by
    unfold canLoadMore
    rw [hload, hlt]
    simp [hc0]
  unfold loadMoreZaps
  rw [if_neg (show ¬ canLoadMore true s = false from by rw [hguard]; simp)]
  dsimp only
  rw [hlt]
  split
  · next h => simp at h
  · rfl

/-- C10: from a steady view state (cursor set, not loading), under the data
model's invariants — content-addressed ids determine `createdAt`, events
carry nonempty ids, and every stored event is at or after the cursor — a
pagination batch that yields zero newly accepted events reports a count of
0 to the caller, and `_handleIntersection` then disarms automatic
pagination (tears down the scroll observer and load trigger); a batch that
fails with a timeout or transport error is caught, degrades to zero
results, leaves the Event Store untouched, and likewise disarms. -/
theorem C10_zero_accepted_disarms (store : List Event) (s : LoadState)
    (batchSize : Nat) (arrivals : List Event) (cursor : Int)
    (hlt : s.lastEventTime = some cursor) (hc0 : cursor ≠ 0)
    (hload : s.isLoading = false)
    (hids : ∀ e ∈ arrivals, e.id ≠ "")
    (hidt : ∀ e ∈ arrivals, ∀ x ∈ arrivals, e.id = x.id → e.created_at = x.created_at)
    (hstore : ∀ x ∈ store, ∀ e ∈ arrivals, x.id = e.id → x.created_at = e.created_at)
    (hLB : ∀ x ∈ store, cursor ≤ x.created_at) :
    (((loadMoreZaps store s true batchSize true
          (BatchOutcome.events arrivals) true).store.length - store.length = 0) →
        (loadMoreZaps store s true batchSize true
            (BatchOutcome.events arrivals) true).result = Except.ok 0 ∧
          handleIntersection true store s true batchSize true
              (BatchOutcome.events arrivals) true
            = IntersectionOutcome.ran
                (loadMoreZaps store s true batchSize true
                  (BatchOutcome.events arrivals) true) true)
    ∧ ((loadMoreZaps store s true batchSize true BatchOutcome.failure true).result
          = Except.ok 0 ∧
        (loadMoreZaps store s true batchSize true BatchOutcome.failure true).store
          = store ∧
        handleIntersection true store s true batchSize true BatchOutcome.failure true
          = IntersectionOutcome.ran
              (loadMoreZaps store s true batchSize true BatchOutcome.failure true) true) := by
  have hmain := loadMoreZaps_events_eq store s batchSize arrivals cursor hlt hc0 hload
  have hfacts : (∀ b ∈ (collectEvents batchSize arrivals cursor).1,
        b ∈ arrivals ∧ b.created_at < cursor) ∧
      List.Pairwise (fun a b => b.created_at < a.created_at)
        (collectEvents batchSize arrivals cursor).1 :=
    collectEventsGo_facts batchSize cursor (fun e => e ∈ arrivals) arrivals [] cursor
      (fun _ he => he) (fun b hb => absurd hb (List.not_mem_nil b))
      (fun b hb => absurd hb (List.not_mem_nil b)) List.Pairwise.nil le_rfl
      (fun b hb => absurd hb (List.not_mem_nil b))
  obtain ⟨hmemlt, hpairs⟩ := hfacts
  have hsorted : sortDesc (collectEvents batchSize arrivals cursor).1
      = (collectEvents batchSize arrivals cursor).1 :=
    sortDesc_eq_self _ (hpairs.imp (fun hab => le_of_lt hab))
  have hproc : (processBatchEvents store (collectEvents batchSize arrivals cursor).1).length
      = store.length + (collectEvents batchSize arrivals cursor).1.length := by
    unfold processBatchEvents
    rw [hsorted]
    apply foldl_addEventL_fresh
    · intro e he
      exact hids e (hmemlt e he).1
    · intro e he x hx
      unfold notDup
      rintro (hid | hquad)
      · have heq := hstore x hx e (hmemlt e he).1 hid
        have h2 := (hmemlt e he).2
        have h3 := hLB x hx
        omega
      · have heq := hquad.2.2.2
        have h2 := (hmemlt e he).2
        have h3 := hLB x hx
        omega
    · exact pairwise_notDup_of_strict _ hpairs
        (fun a ha b hb hab => hidt a (hmemlt a ha).1 b (hmemlt b hb).1 hab)
  constructor
  · intro hzero
    rw [hmain] at hzero
    dsimp only at hzero
    rw [hproc] at hzero
    have hBlen : (collectEvents batchSize arrivals cursor).1.length = 0 := by omega
    constructor
    · rw [hmain]
      dsimp only
      rw [hBlen]
    · unfold handleIntersection
      rw [if_neg (show ¬ (true : Bool) = false from by simp)]
      rw [if_neg (show ¬ s.isLoading = true from by rw [hload]; simp)]
      rw [hmain]
      dsimp only
      rw [hBlen]
      rfl
  · have hfail := loadMoreZaps_failure_eq store s batchSize cursor hlt hc0 hload
    refine ⟨?_, ?_, ?_⟩
    · rw [hfail]
    · rw [hfail]
    · unfold handleIntersection
      rw [if_neg (show ¬ (true : Bool) = false from by simp)]
      rw [if_neg (show ¬ s.isLoading = true from by rw [hload]; simp)]
      rw [hfail]
      rfl

/-- Witness: an empty batch on a steady view reports 0 and disarms the
scroll observer. -/
theorem C10_witness :
    (loadMoreZaps [evA] c1State true 5 true (BatchOutcome.events []) true).result
        = Except.ok 0 ∧
      handleIntersection true [evA] c1State true 5 true (BatchOutcome.events []) true
        = IntersectionOutcome.ran
            (loadMoreZaps [evA] c1State true 5 true (BatchOutcome.events []) true) true :=
  (C10_zero_accepted_disarms [evA] c1State 5 [] 1000 rfl (by decide) rfl
      (fun e he => absurd he (List.not_mem_nil e))
      (fun e he => absurd he (List.not_mem_nil e))
      (fun _ _ e he => absurd he (List.not_mem_nil e))
      (by
        intro x hx
        rw [List.mem_singleton] at hx
        subst hx
        decide)).1 (by decide)
